import Mathlib

/-!
# Frame loop of the Metal hello-triangle renderer

A shallow embedding of `src/renderer.cpp`: the constructor `Renderer::Renderer`,
the destructor `Renderer::~Renderer`, the frame loop `Renderer::render` and the
frame timer `Renderer::logFPS`.

Calls into GLFW, Foundation and Metal are not interpreted.  Every such call is
recorded as an `Event`, in program order, and the answers of the outside world
(the device of the layer, the window-closure flag, the drawable of a frame, the
clock) are read from a `World`.  Objects handed out by the runtime (pools, buffers, descriptors,
encoders, queues, geometry) are named by handles: natural numbers drawn from a
counter, so two allocations never share a handle.
-/

namespace MetalRenderer

/-- A `CA::MetalDrawable`: the presentable image and the texture it carries
(`drawable->texture()`). -/
structure Drawable where
  id : Nat
  texture : Nat
deriving DecidableEq

/-- The values of `MTL::LoadAction`. -/
inductive LoadAction
  | dontCare
  | load
  | clear
deriving DecidableEq

/-- The values of `MTL::StoreAction` the program can name. -/
inductive StoreAction
  | dontCare
  | store
deriving DecidableEq

/-- An `MTL::ClearColor`; the components the program passes are whole numbers. -/
structure ClearColor where
  red : Nat
  green : Nat
  blue : Nat
  alpha : Nat
deriving DecidableEq

/-- One call that leaves `renderer.cpp`, with its receiver, arguments and result. -/
inductive Event
  /-- `window.getMetalLayer()->device()` and what it returned. -/
  | getDevice (device : Option Nat)
  /-- `new Triangle(device)`. -/
  | newTriangle (device : Option Nat) (triangle : Nat)
  /-- `new Quad(device)`. -/
  | newQuad (device : Option Nat) (quad : Nat)
  /-- `device->newCommandQueue()`. -/
  | newCommandQueue (device : Option Nat) (queue : Nat)
  /-- `->retain()` on the new queue. -/
  | retainQueue (queue : Nat)
  /-- `delete` of a geometry object. -/
  | deleteGeometry (geometry : Nat)
  /-- `commandQueue->release()`. -/
  | releaseQueue (queue : Nat)
  /-- `glfwWindowShouldClose(...)` and what it returned. -/
  | windowShouldClose (closed : Bool)
  /-- `glfwPollEvents()`. -/
  | pollEvents
  /-- `NS::AutoreleasePool::alloc()->init()`. -/
  | poolAllocInit (pool : Nat)
  /-- `window.getMetalLayer()->nextDrawable()` and what it returned. -/
  | nextDrawable (drawable : Option Drawable)
  /-- The line written to `std::cerr` when the drawable is null. -/
  | logDrawableNull
  /-- `commandQueue->commandBuffer()`. -/
  | commandBuffer (queue : Option Nat) (buffer : Nat)
  /-- `MTL::RenderPassDescriptor::alloc()->init()`. -/
  | renderPassAllocInit (pass : Nat)
  /-- `colorAttachment->setTexture(drawable->texture())` on attachment 0 of the pass. -/
  | setTexture (pass : Nat) (texture : Nat)
  /-- `colorAttachment->setLoadAction(...)`. -/
  | setLoadAction (pass : Nat) (action : LoadAction)
  /-- `colorAttachment->setClearColor(...)`. -/
  | setClearColor (pass : Nat) (color : ClearColor)
  /-- `colorAttachment->setStoreAction(...)`. -/
  | setStoreAction (pass : Nat) (action : StoreAction)
  /-- `commandBuffer->renderCommandEncoder(renderPass)`. -/
  | renderCommandEncoder (buffer : Nat) (pass : Nat) (encoder : Nat)
  /-- `geometry->encodeRenderCommands(encoder)`. -/
  | encodeRenderCommands (geometry : Option Nat) (encoder : Nat)
  /-- `encoder->endEncoding()`. -/
  | endEncoding (encoder : Nat)
  /-- `commandBuffer->presentDrawable(drawable)`. -/
  | presentDrawable (buffer : Nat) (drawable : Drawable)
  /-- `commandBuffer->commit()`. -/
  | commit (buffer : Nat)
  /-- `renderPass->release()`. -/
  | renderPassRelease (pass : Nat)
  /-- `pool->release()`. -/
  | poolRelease (pool : Nat)
deriving DecidableEq

/-- Modelled from the spec: the class declaration (`renderer.h`) is not among the
sources.  The fields are the members that `renderer.cpp` initialises and uses; pointers are
`Option Nat` with `none` for `nullptr`, the time members are exact rationals (seconds) and
the two counters are integers. -/
structure Renderer where
  device : Option Nat
  commandQueue : Option Nat
  triangle : Option Nat
  quad : Option Nat
  previousTime : ℚ
  totalTime : ℚ
  lastPrintedSecond : ℤ
  frames : ℤ

/-- The answers of the outside world. `shouldClose k` and `nextDrawable k` are the results of
the call made in loop iteration `k` (counted from 0); the loop makes at most one of each per
iteration. `startTime` is the clock reading taken by the constructor. -/
structure World where
  device : Option Nat
  startTime : ℚ
  shouldClose : Nat → Bool
  nextDrawable : Nat → Option Drawable

/-- How a (bounded) run of the frame loop ended. -/
inductive Exit
  /-- The loop condition was false: the window asked to close. -/
  | windowClosed
  /-- The `return` taken on a null drawable. -/
  | drawableNull
  /-- The iteration budget ran out with the loop still running. -/
  | stillRunning
deriving DecidableEq

/-- What one pass through the loop body did: the calls made, the next unused handle, and
whether control reaches the end of the body (`false` for the early `return`). -/
structure BodyResult where
  events : List Event
  next : Nat
  completed : Bool

/-- The body of the `while` loop of `Renderer::render` (lines 43-89), given the answer of
`nextDrawable` for this iteration and the next unused handle. `LOG` is not defined, so the
call of `logFPS` is not compiled. -/
def renderBody (r : Renderer) (drawable : Option Drawable) (next : Nat) : BodyResult :=
  let pool := next
  match drawable with
  | none =>
    { events := [.pollEvents, .poolAllocInit pool, .nextDrawable none, .logDrawableNull],
      next := next + 1,
      completed := false }
  | some d =>
    let commandBuffer := next + 1
    let renderPass := next + 2
    let encoder := next + 3
    { events :=
        [.pollEvents,
         .poolAllocInit pool,
         .nextDrawable (some d),
         .commandBuffer r.commandQueue commandBuffer,
         .renderPassAllocInit renderPass,
         .setTexture renderPass d.texture,
         .setLoadAction renderPass .clear,
         .setClearColor renderPass ⟨4, 2, 5, 1⟩,
         .setStoreAction renderPass .store,
         .renderCommandEncoder commandBuffer renderPass encoder,
         .encodeRenderCommands r.triangle encoder,
         .endEncoding encoder,
         .presentDrawable commandBuffer d,
         .commit commandBuffer,
         .renderPassRelease renderPass,
         .poolRelease pool],
      next := next + 4,
      completed := true }

/-- Result of a bounded run of the frame loop. -/
structure RunResult where
  trace : List Event
  exit : Exit
  next : Nat

/-- The loop of `Renderer::render`, run for at most `fuel` iterations starting at iteration
`k` with `next` the next unused handle. -/
def renderLoop (r : Renderer) (w : World) : Nat → Nat → Nat → RunResult
  | 0, _, next => { trace := [], exit := .stillRunning, next := next }
  | fuel + 1, k, next =>
    if w.shouldClose k then
      { trace := [.windowShouldClose true], exit := .windowClosed, next := next }
    else
      let body := renderBody r (w.nextDrawable k) next
      if body.completed then
        let rest := renderLoop r w fuel (k + 1) body.next
        { rest with trace := .windowShouldClose false :: body.events ++ rest.trace }
      else
        { trace := .windowShouldClose false :: body.events,
          exit := .drawableNull,
          next := body.next }

/-- The function `Renderer::render`: the loop from its first iteration. -/
def render (r : Renderer) (w : World) (fuel : Nat) (next : Nat) : RunResult :=
  renderLoop r w fuel 0 next

/-- The member initialiser list of the constructor (lines 3-5). `quad` is not in the list; it
is assigned before anything reads it. -/
def Renderer.initial (w : World) : Renderer :=
  { device := none,
    commandQueue := none,
    triangle := none,
    quad := none,
    previousTime := w.startTime,
    totalTime := 0,
    lastPrintedSecond := -1,
    frames := 0 }

/-- How a (bounded) run of the constructor ended. -/
inductive Construction
  /-- The constructor threw `std::runtime_error` with this message. -/
  | threw (message : String)
  /-- The constructor returned this object. -/
  | constructed (r : Renderer)
  /-- The constructor is still inside `render()` when the iteration budget ran out. -/
  | inRender (r : Renderer)

/-- The constructor `Renderer::Renderer(Window&)` (lines 3-24): the calls it makes and how it
ends. The frame loop runs inside the constructor, for at most `fuel` iterations. -/
def construct (w : World) (fuel : Nat) : List Event × Construction :=
  let r0 := Renderer.initial w
  let r1 := { r0 with device := w.device }
  match r1.device with
  | none => ([.getDevice none], .threw "Failed to get Metal Device")
  | some _ =>
    let r2 := { r1 with triangle := some 0 }
    let r3 := { r2 with quad := some 1 }
    let r4 := { r3 with commandQueue := some 2 }
    let run := render r4 w fuel 3
    ([.getDevice r1.device,
      .newTriangle r1.device 0,
      .newQuad r2.device 1,
      .newCommandQueue r3.device 2,
      .retainQueue 2] ++ run.trace,
     match run.exit with
     | .stillRunning => .inRender r4
     | _ => .constructed r4)

/-- The destructor `Renderer::~Renderer()` (lines 26-36): the calls it makes and the fields
it leaves behind. -/
def destruct (r : Renderer) : List Event × Renderer :=
  let deleteTriangle : List Event :=
    match r.triangle with
    | some t => [.deleteGeometry t]
    | none => []
  let r1 := { r with triangle := none }
  let releaseQueue : List Event :=
    match r1.commandQueue with
    | some q => [.releaseQueue q]
    | none => []
  let r2 := if r1.device.isSome then { r1 with device := none } else r1
  (deleteTriangle ++ releaseQueue, r2)

/-- The calls of a renderer's whole life: the constructor and, once it has returned an
object, the destructor of that object. Nothing is destroyed when the constructor threw or has
not returned. -/
def lifecycle (w : World) (fuel : Nat) : List Event :=
  match (construct w fuel).2 with
  | .constructed r => (construct w fuel).1 ++ (destruct r).1
  | _ => (construct w fuel).1

/-- Conversion `static_cast<int>(double)`: truncation toward zero. Times are exact rationals
and the result is an unbounded integer: rounding of `double` and the range of `int` are left
out. -/
def truncToInt (x : ℚ) : ℤ :=
  if 0 ≤ x then ⌊x⌋ else ⌈x⌉

/-- The two lines `logFPS` writes to `std::cout`: the whole second and the frame count. -/
structure Report where
  second : ℤ
  frames : ℤ
deriving DecidableEq

/-- The function `Renderer::logFPS` (lines 93-119), given the reading of `Clock::now()`:
the fields afterwards and the report written, if any. -/
def logFPS (currentTime : ℚ) (r : Renderer) : Renderer × Option Report :=
  let deltaTime := currentTime - r.previousTime
  let r1 := { r with previousTime := currentTime }
  let r2 := { r1 with frames := r1.frames + 1 }
  let r3 := { r2 with totalTime := r2.totalTime + deltaTime }
  let currentSecond := truncToInt r3.totalTime
  if currentSecond > r3.lastPrintedSecond then
    ({ r3 with lastPrintedSecond := currentSecond, frames := 0 },
     some { second := currentSecond, frames := r3.frames })
  else
    (r3, none)

/-- A sequence of `logFPS` calls, one per clock reading: the fields after each call and what
the call reported. -/
def logFPSCalls : List ℚ → Renderer → List (Renderer × Option Report)
  | [], _ => []
  | t :: ts, r => logFPS t r :: logFPSCalls ts (logFPS t r).1

/-- The reports written by a sequence of `logFPS` calls, in order. -/
def reports (times : List ℚ) (r : Renderer) : List Report :=
  (logFPSCalls times r).filterMap fun out => out.2

/-- The accumulated elapsed time (`totalTime`) after each call of a sequence. -/
def elapsed (times : List ℚ) (r : Renderer) : List ℚ :=
  (logFPSCalls times r).map fun out => out.1.totalTime

/-- Number of calls of a sequence whose accumulated elapsed time lies in whole second `s`. -/
def callsInSecond (s : ℤ) (times : List ℚ) (r : Renderer) : Nat :=
  (elapsed times r).countP fun t => truncToInt t = s

/-! ## Observations on a trace -/

/-- The drawables acquired (non-null results of `nextDrawable`), in order. -/
def acquired (t : List Event) : List Drawable :=
  t.filterMap fun e => match e with
    | .nextDrawable (some d) => some d
    | _ => none

/-- The command buffers created, in order. -/
def created (t : List Event) : List Nat :=
  t.filterMap fun e => match e with
    | .commandBuffer _ b => some b
    | _ => none

/-- The command buffers committed, in order. -/
def committed (t : List Event) : List Nat :=
  t.filterMap fun e => match e with
    | .commit b => some b
    | _ => none

/-- The `presentDrawable` calls, in order: the buffer and the drawable it was given. -/
def presented (t : List Event) : List (Nat × Drawable) :=
  t.filterMap fun e => match e with
    | .presentDrawable b d => some (b, d)
    | _ => none

/-- The render passes begun, in order: the buffer and the descriptor its encoder came from. -/
def passes (t : List Event) : List (Nat × Nat) :=
  t.filterMap fun e => match e with
    | .renderCommandEncoder b p _ => some (b, p)
    | _ => none

/-- The colour targets set, in order: the descriptor and the texture stored in it. -/
def targets (t : List Event) : List (Nat × Nat) :=
  t.filterMap fun e => match e with
    | .setTexture p x => some (p, x)
    | _ => none

/-- The encoders obtained, in order. -/
def encoders (t : List Event) : List Nat :=
  t.filterMap fun e => match e with
    | .renderCommandEncoder _ _ c => some c
    | _ => none

/-- The encoders ended, in order. -/
def ended (t : List Event) : List Nat :=
  t.filterMap fun e => match e with
    | .endEncoding c => some c
    | _ => none

/-- The `encodeRenderCommands` calls, in order: the geometry and the encoder it was given. -/
def encoded (t : List Event) : List (Option Nat × Nat) :=
  t.filterMap fun e => match e with
    | .encodeRenderCommands g c => some (g, c)
    | _ => none

/-- The render pass descriptors allocated, in order. -/
def passesAllocated (t : List Event) : List Nat :=
  t.filterMap fun e => match e with
    | .renderPassAllocInit p => some p
    | _ => none

/-- The render pass descriptors released, in order. -/
def passesReleased (t : List Event) : List Nat :=
  t.filterMap fun e => match e with
    | .renderPassRelease p => some p
    | _ => none

/-- The autorelease pools allocated, in order. -/
def poolsAllocated (t : List Event) : List Nat :=
  t.filterMap fun e => match e with
    | .poolAllocInit p => some p
    | _ => none

/-- The autorelease pools released, in order. -/
def poolsReleased (t : List Event) : List Nat :=
  t.filterMap fun e => match e with
    | .poolRelease p => some p
    | _ => none

/-- Number of `glfwPollEvents` calls. -/
def polls (t : List Event) : Nat :=
  t.count .pollEvents

/-- Number of `nextDrawable` requests, whatever they returned. -/
def drawableRequests (t : List Event) : Nat :=
  t.countP fun e => match e with
    | .nextDrawable _ => true
    | _ => false

/-- The queues released, in order. -/
def queuesReleased (t : List Event) : List Nat :=
  t.filterMap fun e => match e with
    | .releaseQueue q => some q
    | _ => none

/-- The geometry objects destroyed, in order. -/
def destroyed (t : List Event) : List Nat :=
  t.filterMap fun e => match e with
    | .deleteGeometry g => some g
    | _ => none

/-- Whether an event is an evaluation of the loop condition. -/
def Event.isLoopTest : Event → Bool
  | .windowShouldClose _ => true
  | _ => false

/-- Cut a trace at every evaluation of the loop condition: the first list holds the calls
before the first evaluation, every later list the calls that follow one evaluation up to the
next. The evaluations themselves are dropped. -/
def iterations : List Event → List (List Event)
  | [] => [[]]
  | e :: t =>
    if e.isLoopTest then [] :: iterations t
    else
      match iterations t with
      | [] => [[e]]
      | s :: ss => (e :: s) :: ss

/-- Effect of one call on the set of live per-frame objects: a pool or descriptor is live from
its allocation to its release, a command buffer from its creation to its commit, an encoder
from the moment it is obtained to `endEncoding`. -/
def track (live : List Nat) : Event → List Nat
  | .poolAllocInit p => p :: live
  | .commandBuffer _ b => b :: live
  | .renderPassAllocInit p => p :: live
  | .renderCommandEncoder _ _ c => c :: live
  | .endEncoding c => live.erase c
  | .commit b => live.erase b
  | .renderPassRelease p => live.erase p
  | .poolRelease p => live.erase p
  | _ => live

/-- The per-frame objects live at the end of a trace. -/
def liveAfter (t : List Event) : List Nat :=
  t.foldl track []

/-- A world whose window stays open and whose surface yields a drawable for each of the first
`n` iterations. -/
def World.Draws (w : World) (n : Nat) : Prop :=
  ∀ j, j < n → w.shouldClose j = false ∧ (w.nextDrawable j).isSome = true

/-- A sample world: the device is present, the surface yields a drawable in every iteration
except iteration `missing` (counted from 0), and the window closes after `frames` iterations. -/
def sampleWorld (missing frames : Nat) : World :=
  { device := some 100,
    startTime := 0,
    shouldClose := fun k => decide (frames ≤ k),
    nextDrawable := fun k => if k = missing then none else some { id := k % 3, texture := 10 + k % 3 } }

/-- The object the constructor builds in a sample world before it enters `render`: device,
triangle (handle 0), quad (handle 1) and command queue (handle 2) are set. -/
def sampleRenderer : Renderer :=
  { Renderer.initial (sampleWorld 7 5) with
    device := some 100, triangle := some 0, quad := some 1, commandQueue := some 2 }

/-- A sample world without a device. -/
def noDeviceWorld : World :=
  { device := none,
    startTime := 0,
    shouldClose := fun _ => false,
    nextDrawable := fun k => some { id := k % 3, texture := 10 + k % 3 } }

/-! ## Unfolding the frame loop -/

theorem renderLoop_closed (r : Renderer) (w : World) (fuel k : Nat) (next : Nat)
    (hc : w.shouldClose k = true) :
    renderLoop r w (fuel + 1) k next
      = { trace := [.windowShouldClose true], exit := .windowClosed, next := next } := by
  simp [renderLoop, hc]

theorem renderLoop_null (r : Renderer) (w : World) (fuel k : Nat) (next : Nat)
    (hc : w.shouldClose k = false) (hd : w.nextDrawable k = none) :
    renderLoop r w (fuel + 1) k next
      = { trace := [.windowShouldClose false, .pollEvents, .poolAllocInit next,
                    .nextDrawable none, .logDrawableNull],
          exit := .drawableNull, next := next + 1 } := by
  simp [renderLoop, hc, hd, renderBody]

theorem renderLoop_frame (r : Renderer) (w : World) (fuel k : Nat) (next : Nat)
    (d : Drawable) (hc : w.shouldClose k = false) (hd : w.nextDrawable k = some d) :
    renderLoop r w (fuel + 1) k next
      = { trace := .windowShouldClose false :: (renderBody r (some d) next).events
                    ++ (renderLoop r w fuel (k + 1) (next + 4)).trace,
          exit := (renderLoop r w fuel (k + 1) (next + 4)).exit,
          next := (renderLoop r w fuel (k + 1) (next + 4)).next } := by
  simp [renderLoop, hc, hd, renderBody]

/-- Every buffer and descriptor a run creates has a handle at or above the first unused
handle of the run. -/
theorem renderLoop_fresh (r : Renderer) (w : World) :
    ∀ (fuel k : Nat) (next : Nat),
      (∀ b ∈ created (renderLoop r w fuel k next).trace, next ≤ b) ∧
      (∀ p ∈ passesAllocated (renderLoop r w fuel k next).trace, next ≤ p) := by
  intro fuel
  induction fuel with
  | zero => intro k next; simp [renderLoop, created, passesAllocated]
  | succ fuel ih =>
    intro k next
    cases hc : w.shouldClose k with
    | true => simp [renderLoop_closed r w fuel k next hc, created, passesAllocated]
    | false =>
      cases hd : w.nextDrawable k with
      | none => simp [renderLoop_null r w fuel k next hc hd, created, passesAllocated]
      | some d =>
        rw [renderLoop_frame r w fuel k next d hc hd]
        have h := ih (k + 1) (next + 4)
        simp only [created, passesAllocated] at h
        simp only [created, passesAllocated, renderBody, List.cons_append, List.nil_append,
          List.filterMap_cons, List.mem_cons]
        refine ⟨?_, ?_⟩
        · rintro b (rfl | hb)
          · omega
          · have := h.1 b hb; omega
        · rintro b (rfl | hb)
          · omega
          · have := h.2 b hb; omega

theorem renderLoop_pairing (r : Renderer) (w : World) :
    ∀ (fuel k : Nat) (next : Nat),
      (created (renderLoop r w fuel k next).trace).length
          = (acquired (renderLoop r w fuel k next).trace).length ∧
      committed (renderLoop r w fuel k next).trace
          = created (renderLoop r w fuel k next).trace ∧
      (created (renderLoop r w fuel k next).trace).Nodup ∧
      presented (renderLoop r w fuel k next).trace
          = (created (renderLoop r w fuel k next).trace).zip
              (acquired (renderLoop r w fuel k next).trace) ∧
      passes (renderLoop r w fuel k next).trace
          = (created (renderLoop r w fuel k next).trace).zip
              (passesAllocated (renderLoop r w fuel k next).trace) ∧
      (passesAllocated (renderLoop r w fuel k next).trace).Nodup ∧
      targets (renderLoop r w fuel k next).trace
          = (passesAllocated (renderLoop r w fuel k next).trace).zip
              ((acquired (renderLoop r w fuel k next).trace).map Drawable.texture) := by
  intro fuel
  induction fuel with
  | zero =>
    intro k next
    simp [renderLoop, created, acquired, committed, presented, passes, targets, passesAllocated]
  | succ fuel ih =>
    intro k next
    cases hc : w.shouldClose k with
    | true =>
      simp [renderLoop_closed r w fuel k next hc, created, acquired, committed, presented,
        passes, targets, passesAllocated]
    | false =>
      cases hd : w.nextDrawable k with
      | none =>
        simp [renderLoop_null r w fuel k next hc hd, created, acquired, committed, presented,
          passes, targets, passesAllocated]
      | some d =>
        rw [renderLoop_frame r w fuel k next d hc hd]
        have h := ih (k + 1) (next + 4)
        have hf := renderLoop_fresh r w fuel (k + 1) (next + 4)
        simp only [created, acquired, committed, presented, passes, targets,
          passesAllocated] at h hf
        simp only [created, acquired, committed, presented, passes, targets, passesAllocated,
          renderBody, List.cons_append, List.nil_append, List.filterMap_cons, List.length_cons,
          List.zip_cons_cons, List.map_cons, List.nodup_cons]
        obtain ⟨h1, h2, h3, h4, h5, h6, h7⟩ := h
        refine ⟨by rw [h1], by rw [h2], ⟨?_, h3⟩, by rw [h4], by rw [h5], ⟨?_, h6⟩, by rw [h7]⟩
        · intro hb; have := hf.1 _ hb; omega
        · intro hb; have := hf.2 _ hb; omega

/-- Every command buffer of a run is created from the renderer's command queue. -/
theorem renderLoop_queue (r : Renderer) (w : World) :
    ∀ (fuel k next : Nat) (q : Option Nat) (b : Nat),
      Event.commandBuffer q b ∈ (renderLoop r w fuel k next).trace → q = r.commandQueue := by
  intro fuel
  induction fuel with
  | zero => intro k next q b; simp [renderLoop]
  | succ fuel ih =>
    intro k next q b
    cases hc : w.shouldClose k with
    | true => simp [renderLoop_closed r w fuel k next hc]
    | false =>
      cases hd : w.nextDrawable k with
      | none => simp [renderLoop_null r w fuel k next hc hd]
      | some d =>
        rw [renderLoop_frame r w fuel k next d hc hd]
        intro h
        simp [renderBody] at h
        rcases h with ⟨h, _⟩ | h
        · exact h
        · exact ih _ _ _ _ h

/-- Once a bounded run has left the loop, a larger budget changes nothing. -/
theorem renderLoop_stable (r : Renderer) (w : World) :
    ∀ (fuel k next extra : Nat),
      (renderLoop r w fuel k next).exit ≠ .stillRunning →
      renderLoop r w (fuel + extra) k next = renderLoop r w fuel k next := by
  intro fuel
  induction fuel with
  | zero => intro k next extra h; simp [renderLoop] at h
  | succ fuel ih =>
    intro k next extra
    have e : fuel + 1 + extra = (fuel + extra) + 1 := by omega
    rw [e]
    cases hc : w.shouldClose k with
    | true =>
      simp [renderLoop_closed r w _ k next hc]
    | false =>
      cases hd : w.nextDrawable k with
      | none => simp [renderLoop_null r w _ k next hc hd]
      | some d =>
        rw [renderLoop_frame r w fuel k next d hc hd,
          renderLoop_frame r w (fuel + extra) k next d hc hd]
        intro h
        rw [ih (k + 1) (next + 4) extra h]

/-- If the window asks to close or the surface yields no drawable in iteration `k + n`, a run
started at iteration `k` leaves the loop within `n + 1` iterations. -/
theorem renderLoop_exits (r : Renderer) (w : World) :
    ∀ (n k next : Nat),
      (w.shouldClose (k + n) = true ∨ w.nextDrawable (k + n) = none) →
      (renderLoop r w (n + 1) k next).exit ≠ .stillRunning := by
  intro n
  induction n with
  | zero =>
    intro k next h
    cases hc : w.shouldClose k with
    | true => simp [renderLoop_closed r w _ k next hc]
    | false =>
      cases hd : w.nextDrawable k with
      | none => simp [renderLoop_null r w _ k next hc hd]
      | some d => simp [hc, hd] at h
  | succ n ih =>
    intro k next h
    cases hc : w.shouldClose k with
    | true => simp [renderLoop_closed r w _ k next hc]
    | false =>
      cases hd : w.nextDrawable k with
      | none => simp [renderLoop_null r w _ k next hc hd]
      | some d =>
        rw [renderLoop_frame r w _ k next d hc hd]
        have e : k + (n + 1) = (k + 1) + n := by omega
        rw [e] at h
        exact ih (k + 1) (next + 4) h

/-! ## The iterations of a run -/

theorem iterations_loop_test (closed : Bool) (t : List Event) :
    iterations (.windowShouldClose closed :: t) = [] :: iterations t := by
  simp [iterations, Event.isLoopTest]

theorem iterations_append (ev rest s : List Event) (ss : List (List Event))
    (hev : ∀ e ∈ ev, e.isLoopTest = false) (h : iterations rest = s :: ss) :
    iterations (ev ++ rest) = (ev ++ s) :: ss := by
  induction ev with
  | nil => simpa using h
  | cons e ev ih =>
    have he : e.isLoopTest = false := hev e (List.mem_cons_self _ _)
    have ih2 := ih (fun x hx => hev x (List.mem_cons_of_mem _ hx))
    simp [iterations, he, ih2]

theorem renderBody_no_loop_test (r : Renderer) (drawable : Option Drawable) (next : Nat) :
    ∀ e ∈ (renderBody r drawable next).events, e.isLoopTest = false := by
  cases drawable with
  | none => simp [renderBody, Event.isLoopTest]
  | some d => simp [renderBody, Event.isLoopTest]

/-- The iterations of a run: nothing precedes the first loop test, and what follows a loop
test is nothing (the loop was left, or the budget ran out) or one pass through the body. -/
theorem renderLoop_iterations (r : Renderer) (w : World) :
    ∀ (fuel k next : Nat), ∃ ss : List (List Event),
      iterations (renderLoop r w fuel k next).trace = [] :: ss ∧
      ∀ seg ∈ ss, seg = [] ∨ ∃ (drawable : Option Drawable) (h : Nat),
        seg = (renderBody r drawable h).events := by
  intro fuel
  induction fuel with
  | zero => intro k next; exact ⟨[], by simp [renderLoop, iterations], by simp⟩
  | succ fuel ih =>
    intro k next
    cases hc : w.shouldClose k with
    | true =>
      refine ⟨[[]], ?_, ?_⟩
      · simp [renderLoop_closed r w fuel k next hc, iterations, Event.isLoopTest]
      · simp
    | false =>
      cases hd : w.nextDrawable k with
      | none =>
        refine ⟨[(renderBody r none next).events], ?_, ?_⟩
        · simp [renderLoop_null r w fuel k next hc hd, iterations, Event.isLoopTest, renderBody]
        · intro seg hseg
          right
          exact ⟨none, next, by simpa using hseg⟩
      | some d =>
        obtain ⟨ss, h1, h2⟩ := ih (k + 1) (next + 4)
        refine ⟨(renderBody r (some d) next).events :: ss, ?_, ?_⟩
        · rw [renderLoop_frame r w fuel k next d hc hd]
          have := iterations_append (renderBody r (some d) next).events _ _ _
            (renderBody_no_loop_test r (some d) next) h1
          simp only [List.append_nil] at this
          rw [List.cons_append, iterations_loop_test, this]
        · intro seg hseg
          rcases List.mem_cons.1 hseg with rfl | hseg
          · right; exact ⟨some d, next, rfl⟩
          · exact h2 seg hseg

/-! ## Pairing of command buffers and drawables -/

/-- C1: in every run of `render` the number of command buffers created equals the number of
drawables acquired, every buffer comes from the renderer's command queue, the buffers are
pairwise distinct and the commits are exactly the buffers created (so each is committed once),
the i-th `presentDrawable` is called on the i-th buffer with the i-th drawable acquired, and
the render pass of the i-th buffer uses the i-th descriptor, whose texture is the texture of
that same i-th drawable. -/
theorem render_pairs_buffer_with_drawable (r : Renderer) (w : World) (fuel next : Nat) :
    (created (render r w fuel next).trace).length
        = (acquired (render r w fuel next).trace).length ∧
    (∀ q b, Event.commandBuffer q b ∈ (render r w fuel next).trace → q = r.commandQueue) ∧
    (created (render r w fuel next).trace).Nodup ∧
    committed (render r w fuel next).trace = created (render r w fuel next).trace ∧
    presented (render r w fuel next).trace
        = (created (render r w fuel next).trace).zip (acquired (render r w fuel next).trace) ∧
    passes (render r w fuel next).trace
        = (created (render r w fuel next).trace).zip
            (passesAllocated (render r w fuel next).trace) ∧
    (passesAllocated (render r w fuel next).trace).Nodup ∧
    targets (render r w fuel next).trace
        = (passesAllocated (render r w fuel next).trace).zip
            ((acquired (render r w fuel next).trace).map Drawable.texture) := by
  obtain ⟨h1, h2, h3, h4, h5, h6, h7⟩ := renderLoop_pairing r w fuel 0 next
  exact ⟨h1, renderLoop_queue r w fuel 0 next, h3, h2, h4, h5, h6, h7⟩

/-! ## Order of the calls of one iteration -/

/-- C2: in every run of `render`, an iteration that acquires a drawable `d` consists of
exactly these calls in this order: poll events, allocate the pool, `nextDrawable`, create the
command buffer, allocate the render pass descriptor, set its texture to the texture of `d`,
set load action clear, set the clear colour, set store action store, obtain the encoder,
encode the triangle, end encoding, present `d`, commit, release the descriptor, release the
pool. In particular `endEncoding` is called once, after the geometry is encoded and before
the commit. -/
theorem render_iteration_order (r : Renderer) (w : World) (fuel next : Nat)
    (seg : List Event) (d : Drawable)
    (hseg : seg ∈ iterations (render r w fuel next).trace)
    (hd : Event.nextDrawable (some d) ∈ seg) :
    ∃ pool buffer pass encoder : Nat,
      seg = [.pollEvents,
             .poolAllocInit pool,
             .nextDrawable (some d),
             .commandBuffer r.commandQueue buffer,
             .renderPassAllocInit pass,
             .setTexture pass d.texture,
             .setLoadAction pass .clear,
             .setClearColor pass ⟨4, 2, 5, 1⟩,
             .setStoreAction pass .store,
             .renderCommandEncoder buffer pass encoder,
             .encodeRenderCommands r.triangle encoder,
             .endEncoding encoder,
             .presentDrawable buffer d,
             .commit buffer,
             .renderPassRelease pass,
             .poolRelease pool] ∧
      ended seg = [encoder] ∧
      ∃ before after : List Event,
        seg = before ++ .endEncoding encoder :: after ∧
        encoded before = [(r.triangle, encoder)] ∧ encoded after = [] ∧
        committed before = [] ∧ committed after = [buffer] := by
  obtain ⟨ss, h1, h2⟩ := renderLoop_iterations r w fuel 0 next
  have hseg2 : seg ∈ [] :: ss := by
    have := hseg
    unfold render at this
    rwa [h1] at this
  have hne : seg ≠ [] := by
    intro h
    rw [h] at hd
    exact List.not_mem_nil _ hd
  rcases List.mem_cons.1 hseg2 with h | h
  · exact absurd h hne
  · rcases h2 seg h with h | ⟨drawable, n, h⟩
    · exact absurd h hne
    · cases drawable with
      | none =>
        rw [h] at hd
        simp [renderBody] at hd
      | some d2 =>
        rw [h] at hd
        simp [renderBody] at hd
        subst hd
        refine ⟨n, n + 1, n + 2, n + 3, ?_, ?_, ?_⟩
        · rw [h]; rfl
        · rw [h]; rfl
        · refine ⟨[.pollEvents, .poolAllocInit n, .nextDrawable (some d),
              .commandBuffer r.commandQueue (n + 1), .renderPassAllocInit (n + 2),
              .setTexture (n + 2) d.texture, .setLoadAction (n + 2) .clear,
              .setClearColor (n + 2) ⟨4, 2, 5, 1⟩, .setStoreAction (n + 2) .store,
              .renderCommandEncoder (n + 1) (n + 2) (n + 3),
              .encodeRenderCommands r.triangle (n + 3)],
            [.presentDrawable (n + 1) d, .commit (n + 1), .renderPassRelease (n + 2),
              .poolRelease n], ?_, rfl, rfl, rfl, rfl⟩
          rw [h]; rfl

theorem render_iteration_order_witness :
    ([.pollEvents, .poolAllocInit 3, .nextDrawable (some ⟨0, 10⟩), .commandBuffer (some 2) 4,
        .renderPassAllocInit 5, .setTexture 5 10, .setLoadAction 5 .clear,
        .setClearColor 5 ⟨4, 2, 5, 1⟩, .setStoreAction 5 .store, .renderCommandEncoder 4 5 6,
        .encodeRenderCommands (some 0) 6, .endEncoding 6, .presentDrawable 4 ⟨0, 10⟩, .commit 4,
        .renderPassRelease 5, .poolRelease 3]
      ∈ iterations (render sampleRenderer (sampleWorld 7 1) 2 3).trace) ∧
    ∃ pool buffer pass encoder : Nat,
      ([.pollEvents, .poolAllocInit 3, .nextDrawable (some ⟨0, 10⟩), .commandBuffer (some 2) 4,
        .renderPassAllocInit 5, .setTexture 5 10, .setLoadAction 5 .clear,
        .setClearColor 5 ⟨4, 2, 5, 1⟩, .setStoreAction 5 .store, .renderCommandEncoder 4 5 6,
        .encodeRenderCommands (some 0) 6, .endEncoding 6, .presentDrawable 4 ⟨0, 10⟩, .commit 4,
        .renderPassRelease 5, .poolRelease 3] : List Event)
      = [.pollEvents, .poolAllocInit pool, .nextDrawable (some ⟨0, 10⟩),
        .commandBuffer sampleRenderer.commandQueue buffer, .renderPassAllocInit pass,
        .setTexture pass 10, .setLoadAction pass .clear, .setClearColor pass ⟨4, 2, 5, 1⟩,
        .setStoreAction pass .store, .renderCommandEncoder buffer pass encoder,
        .encodeRenderCommands sampleRenderer.triangle encoder, .endEncoding encoder,
        .presentDrawable buffer ⟨0, 10⟩, .commit buffer, .renderPassRelease pass,
        .poolRelease pool] :=
  ⟨by decide,
   (render_iteration_order sampleRenderer (sampleWorld 7 1) 2 3 _ ⟨0, 10⟩
      (by decide) (by decide)).imp fun _ h => h.imp fun _ h => h.imp fun _ h =>
        h.imp fun _ h => h.1⟩

/-! ## Live per-frame objects -/

theorem liveAfter_append (a b : List Event) :
    liveAfter (a ++ b) = b.foldl track (liveAfter a) := by
  simp [liveAfter, List.foldl_append]

/-- A completed iteration leaves no per-frame object live. -/
theorem frame_live_end (r : Renderer) (d : Drawable) (next : Nat) :
    liveAfter (.windowShouldClose false :: (renderBody r (some d) next).events) = [] := by
  simp [renderBody, liveAfter, track]

/-- At every point inside a completed iteration at most four per-frame objects are live. -/
theorem frame_live_bound (r : Renderer) (d : Drawable) (next n : Nat) :
    (liveAfter ((.windowShouldClose false :: (renderBody r (some d) next).events).take n)).length
      ≤ 4 := by
  by_cases hn : n < 17
  · interval_cases n <;> simp [renderBody, liveAfter, track]
  · have hlen : (Event.windowShouldClose false :: (renderBody r (some d) next).events).length
        ≤ n := by
      simp [renderBody]; omega
    rw [List.take_of_length_le hlen, frame_live_end]
    simp

/-- At every point of every run at most four per-frame objects are live. -/
theorem renderLoop_live_bound (r : Renderer) (w : World) :
    ∀ (fuel k next n : Nat),
      (liveAfter ((renderLoop r w fuel k next).trace.take n)).length ≤ 4 := by
  intro fuel
  induction fuel with
  | zero => intro k next n; simp [renderLoop, liveAfter]
  | succ fuel ih =>
    intro k next n
    cases hc : w.shouldClose k with
    | true =>
      rw [renderLoop_closed r w fuel k next hc]
      by_cases hn : n < 1
      · interval_cases n; simp [liveAfter]
      · rw [List.take_of_length_le (by simp; omega)]
        simp [liveAfter, track]
    | false =>
      cases hd : w.nextDrawable k with
      | none =>
        rw [renderLoop_null r w fuel k next hc hd]
        by_cases hn : n < 5
        · interval_cases n <;> simp [liveAfter, track]
        · rw [List.take_of_length_le (by simp; omega)]
          simp [liveAfter, track]
      | some d =>
        rw [renderLoop_frame r w fuel k next d hc hd]
        show (liveAfter (List.take n
          ((Event.windowShouldClose false :: (renderBody r (some d) next).events)
            ++ (renderLoop r w fuel (k + 1) (next + 4)).trace))).length ≤ 4
        rw [List.take_append_eq_append_take, liveAfter_append]
        by_cases hn : n < 17
        · have h0 : n - (Event.windowShouldClose false ::
              (renderBody r (some d) next).events).length = 0 := by
            simp [renderBody]; omega
          rw [h0]
          simpa using frame_live_bound r d next n
        · have hlen : (Event.windowShouldClose false ::
              (renderBody r (some d) next).events).length ≤ n := by
            simp [renderBody]; omega
          rw [List.take_of_length_le hlen, frame_live_end]
          exact ih _ _ _

/-! ## Runs in which every iteration acquires a drawable -/

/-- While the window stays open and the surface yields drawables for `n` iterations, a run
with a budget of `n + fuel` iterations is the run of the first `n` iterations followed by the
run of the rest, and the first `n` iterations do not leave the loop. -/
theorem renderLoop_draws_split (r : Renderer) (w : World) :
    ∀ (n k next fuel : Nat),
      (∀ j, j < n → w.shouldClose (k + j) = false ∧ (w.nextDrawable (k + j)).isSome = true) →
      renderLoop r w (n + fuel) k next
        = { trace := (renderLoop r w n k next).trace
                      ++ (renderLoop r w fuel (k + n) (next + 4 * n)).trace,
            exit := (renderLoop r w fuel (k + n) (next + 4 * n)).exit,
            next := (renderLoop r w fuel (k + n) (next + 4 * n)).next } ∧
      (renderLoop r w n k next).exit = .stillRunning := by
  intro n
  induction n with
  | zero => intro k next fuel _; simp [renderLoop]
  | succ n ih =>
    intro k next fuel h
    have h0 := h 0 (by omega)
    simp only [Nat.add_zero] at h0
    obtain ⟨d, hd⟩ := Option.isSome_iff_exists.1 h0.2
    have hrest : ∀ j, j < n →
        w.shouldClose (k + 1 + j) = false ∧ (w.nextDrawable (k + 1 + j)).isSome = true := by
      intro j hj
      have := h (j + 1) (by omega)
      have e : k + (j + 1) = k + 1 + j := by omega
      rwa [e] at this
    obtain ⟨h1, h2⟩ := ih (k + 1) (next + 4) fuel hrest
    have e1 : n + 1 + fuel = (n + fuel) + 1 := by omega
    have e2 : k + (n + 1) = k + 1 + n := by omega
    have e3 : next + 4 * (n + 1) = next + 4 + 4 * n := by omega
    rw [e1, e2, e3, renderLoop_frame r w (n + fuel) k next d h0.1 hd,
      renderLoop_frame r w n k next d h0.1 hd, h1]
    exact ⟨by simp, h2⟩

/-- What `n` iterations that each acquire a drawable leave behind: `n` of every per-frame
object, each consumed, and nothing live. -/
theorem renderLoop_draws_counts (r : Renderer) (w : World) :
    ∀ (n k next : Nat),
      (∀ j, j < n → w.shouldClose (k + j) = false ∧ (w.nextDrawable (k + j)).isSome = true) →
      (created (renderLoop r w n k next).trace).length = n ∧
      (passesAllocated (renderLoop r w n k next).trace).length = n ∧
      (encoders (renderLoop r w n k next).trace).length = n ∧
      polls (renderLoop r w n k next).trace = n ∧
      drawableRequests (renderLoop r w n k next).trace = n ∧
      passesReleased (renderLoop r w n k next).trace
        = passesAllocated (renderLoop r w n k next).trace ∧
      poolsReleased (renderLoop r w n k next).trace
        = poolsAllocated (renderLoop r w n k next).trace ∧
      ended (renderLoop r w n k next).trace = encoders (renderLoop r w n k next).trace ∧
      liveAfter (renderLoop r w n k next).trace = [] := by
  intro n
  induction n with
  | zero =>
    intro k next _
    simp [renderLoop, created, passesAllocated, encoders, polls, drawableRequests,
      passesReleased, poolsReleased, poolsAllocated, ended, liveAfter]
  | succ n ih =>
    intro k next h
    have h0 := h 0 (by omega)
    simp only [Nat.add_zero] at h0
    obtain ⟨d, hd⟩ := Option.isSome_iff_exists.1 h0.2
    have hrest : ∀ j, j < n →
        w.shouldClose (k + 1 + j) = false ∧ (w.nextDrawable (k + 1 + j)).isSome = true := by
      intro j hj
      have := h (j + 1) (by omega)
      have e : k + (j + 1) = k + 1 + j := by omega
      rwa [e] at this
    obtain ⟨h1, h2, h3, h4, h5, h6, h7, h8, h9⟩ := ih (k + 1) (next + 4) hrest
    rw [renderLoop_frame r w n k next d h0.1 hd]
    refine ⟨?_, ?_, ?_, ?_, ?_, ?_, ?_, ?_, ?_⟩
    · simp only [created] at h1 ⊢
      simp [renderBody, h1]
    · simp only [passesAllocated] at h2 ⊢
      simp [renderBody, h2]
    · simp only [encoders] at h3 ⊢
      simp [renderBody, h3]
    · simp only [polls] at h4 ⊢
      simp [renderBody, h4]
    · simp only [drawableRequests] at h5 ⊢
      simp [renderBody, h5]
    · simp only [passesReleased, passesAllocated] at h6 ⊢
      simp [renderBody, h6]
    · simp only [poolsReleased, poolsAllocated] at h7 ⊢
      simp [renderBody, h7]
    · simp only [ended, encoders] at h8 ⊢
      simp [renderBody, h8]
    · show liveAfter ((Event.windowShouldClose false :: (renderBody r (some d) next).events)
          ++ (renderLoop r w n (k + 1) (next + 4)).trace) = []
      rw [liveAfter_append, frame_live_end]
      exact h9

/-! ## Missing drawable -/

/-- C3: if the window stays open and the surface yields a drawable in iterations 1 to k-1 and
no drawable in iteration k, then every run with a budget of at least k iterations leaves the
loop through the `return` of iteration k. Its trace is the trace of the first k-1 iterations
followed by the loop test, the event poll, the pool allocation, the failed `nextDrawable` and
the log line, and nothing else: k-1 buffers are created and committed, k-1 descriptors and
encoders are made, and events are polled and a drawable requested k times in all. -/
theorem render_stops_at_null_drawable (r : Renderer) (w : World) (k fuel next : Nat)
    (hk : 0 < k) (hdraws : w.Draws (k - 1)) (hopen : w.shouldClose (k - 1) = false)
    (hnull : w.nextDrawable (k - 1) = none) (hfuel : k ≤ fuel) :
    (render r w fuel next).exit = .drawableNull ∧
    (render r w fuel next).trace
      = (render r w (k - 1) next).trace
          ++ [.windowShouldClose false, .pollEvents, .poolAllocInit (next + 4 * (k - 1)),
              .nextDrawable none, .logDrawableNull] ∧
    (render r w (k - 1) next).exit = .stillRunning ∧
    (committed (render r w fuel next).trace).length = k - 1 ∧
    (created (render r w fuel next).trace).length = k - 1 ∧
    (passesAllocated (render r w fuel next).trace).length = k - 1 ∧
    (encoders (render r w fuel next).trace).length = k - 1 ∧
    polls (render r w fuel next).trace = k ∧
    drawableRequests (render r w fuel next).trace = k := by
  obtain ⟨m, hm⟩ : ∃ m, fuel = (k - 1) + (m + 1) := ⟨fuel - k, by omega⟩
  have hd : ∀ j, j < k - 1 →
      w.shouldClose (0 + j) = false ∧ (w.nextDrawable (0 + j)).isSome = true := by
    intro j hj
    simpa using hdraws j hj
  obtain ⟨hs, he⟩ := renderLoop_draws_split r w (k - 1) 0 next (m + 1) hd
  obtain ⟨c1, c2, c3, c4, c5, -⟩ := renderLoop_draws_counts r w (k - 1) 0 next hd
  have hc := (renderLoop_pairing r w fuel 0 next).2.1
  have hopen2 : w.shouldClose (0 + (k - 1)) = false := by simpa using hopen
  have hnull2 : w.nextDrawable (0 + (k - 1)) = none := by simpa using hnull
  rw [renderLoop_null r w m _ _ hopen2 hnull2] at hs
  have ht : (render r w fuel next).trace
      = (render r w (k - 1) next).trace
          ++ [.windowShouldClose false, .pollEvents, .poolAllocInit (next + 4 * (k - 1)),
              .nextDrawable none, .logDrawableNull] := by
    unfold render
    rw [hm, hs]
  have hx : (render r w fuel next).exit = .drawableNull := by
    unfold render
    rw [hm, hs]
  have hcr : (created (render r w fuel next).trace).length = k - 1 := by
    rw [ht]
    unfold render
    simp only [created] at c1 ⊢
    simp [c1]
  refine ⟨hx, ht, he, ?_, hcr, ?_, ?_, ?_, ?_⟩
  · unfold render at hcr ⊢
    rw [hc, hcr]
  · rw [ht]
    unfold render
    simp only [passesAllocated] at c2 ⊢
    simp [c2]
  · rw [ht]
    unfold render
    simp only [encoders] at c3 ⊢
    simp [c3]
  · rw [ht]
    unfold render
    simp only [polls] at c4 ⊢
    simp [c4]
    omega
  · rw [ht]
    unfold render
    simp only [drawableRequests] at c5 ⊢
    simp [c5]
    omega

theorem render_stops_at_null_drawable_witness :
    (render sampleRenderer (sampleWorld 2 5) 5 3).exit = .drawableNull ∧
    (committed (render sampleRenderer (sampleWorld 2 5) 5 3).trace).length = 3 - 1 ∧
    polls (render sampleRenderer (sampleWorld 2 5) 5 3).trace = 3 ∧
    drawableRequests (render sampleRenderer (sampleWorld 2 5) 5 3).trace = 3 :=
  have h := render_stops_at_null_drawable sampleRenderer (sampleWorld 2 5) 3 5 3
    (by decide) (by unfold World.Draws; decide) (by decide) (by decide) (by decide)
  ⟨h.1, h.2.2.2.1, h.2.2.2.2.2.2.2.1, h.2.2.2.2.2.2.2.2⟩

/-! ## Lifetime of the per-frame objects -/

/-- C8: after K consecutive iterations that each acquired a drawable the loop is still
running and every render pass descriptor and pool allocated has been released, every command
buffer created has been committed and every encoder obtained has been ended; no per-frame
object is live at the end of any of these iterations, and at every point of the run at most
four per-frame objects are live, whatever K is. -/
theorem render_frees_frame_objects (r : Renderer) (w : World) (K next : Nat)
    (h : w.Draws K) :
    (render r w K next).exit = .stillRunning ∧
    passesReleased (render r w K next).trace = passesAllocated (render r w K next).trace ∧
    poolsReleased (render r w K next).trace = poolsAllocated (render r w K next).trace ∧
    committed (render r w K next).trace = created (render r w K next).trace ∧
    ended (render r w K next).trace = encoders (render r w K next).trace ∧
    (created (render r w K next).trace).length = K ∧
    (∀ j, j ≤ K → liveAfter (render r w j next).trace = [] ∧
      ∃ rest, (render r w K next).trace = (render r w j next).trace ++ rest) ∧
    ∀ n, (liveAfter ((render r w K next).trace.take n)).length ≤ 4 := by
  have hd : ∀ n, n ≤ K → ∀ j, j < n →
      w.shouldClose (0 + j) = false ∧ (w.nextDrawable (0 + j)).isSome = true := by
    intro n hn j hj
    simpa using h j (by omega)
  obtain ⟨c1, -, -, -, -, c6, c7, c8, -⟩ := renderLoop_draws_counts r w K 0 next (hd K le_rfl)
  refine ⟨(renderLoop_draws_split r w K 0 next 0 (hd K le_rfl)).2, c6, c7,
    (renderLoop_pairing r w K 0 next).2.1, c8, c1, ?_, ?_⟩
  · intro j hj
    refine ⟨(renderLoop_draws_counts r w j 0 next (hd j hj)).2.2.2.2.2.2.2.2, ?_⟩
    obtain ⟨m, rfl⟩ : ∃ m, K = j + m := ⟨K - j, by omega⟩
    refine ⟨(renderLoop r w m (0 + j) (next + 4 * j)).trace, ?_⟩
    unfold render
    rw [(renderLoop_draws_split r w j 0 next m (hd j hj)).1]
  · intro n
    exact renderLoop_live_bound r w K 0 next n

theorem render_frees_frame_objects_witness :
    (render sampleRenderer (sampleWorld 7 5) 3 3).exit = .stillRunning ∧
    (created (render sampleRenderer (sampleWorld 7 5) 3 3).trace).length = 3 ∧
    liveAfter (render sampleRenderer (sampleWorld 7 5) 3 3).trace = [] ∧
    ∀ n, (liveAfter ((render sampleRenderer (sampleWorld 7 5) 3 3).trace.take n)).length ≤ 4 :=
  have h := render_frees_frame_objects sampleRenderer (sampleWorld 7 5) 3 3
    (by unfold World.Draws; decide)
  ⟨h.1, h.2.2.2.2.2.1, (h.2.2.2.2.2.2.1 3 (by decide)).1, h.2.2.2.2.2.2.2⟩

/-! ## Exit on a null drawable, geometry, shutdown -/

/-- C4, evaluated on a whole life in which the surface yields no drawable in the first
iteration: the loop is left through the early `return`; the pool of that iteration (handle 3)
has been allocated and is never released, neither before the iteration is left nor later. -/
theorem render_null_drawable_keeps_pool :
    (construct (sampleWorld 0 5) 5).1
      = [.getDevice (some 100), .newTriangle (some 100) 0, .newQuad (some 100) 1,
         .newCommandQueue (some 100) 2, .retainQueue 2,
         .windowShouldClose false, .pollEvents, .poolAllocInit 3, .nextDrawable none,
         .logDrawableNull] ∧
    lifecycle (sampleWorld 0 5) 5
      = (construct (sampleWorld 0 5) 5).1 ++ [.deleteGeometry 0, .releaseQueue 2] ∧
    poolsAllocated (lifecycle (sampleWorld 0 5) 5) = [3] ∧
    poolsReleased (lifecycle (sampleWorld 0 5) 5) = [] ∧
    liveAfter (lifecycle (sampleWorld 0 5) 5) = [3] := by
  decide

/-- C5, evaluated on a run of two frames: the constructor creates the triangle (handle 0)
and the quad (handle 1); each frame encodes the triangle once into the encoder of that frame
(handles 6 and 10), and the quad is never encoded. -/
theorem render_encodes_triangle_only :
    Event.newTriangle (some 100) 0 ∈ (construct (sampleWorld 7 2) 5).1 ∧
    Event.newQuad (some 100) 1 ∈ (construct (sampleWorld 7 2) 5).1 ∧
    encoders (construct (sampleWorld 7 2) 5).1 = [6, 10] ∧
    encoded (construct (sampleWorld 7 2) 5).1 = [(some 0, 6), (some 0, 10)] := by
  decide

/-- C6, evaluated on a whole life of two frames: the constructor creates the triangle
(handle 0), the quad (handle 1) and the queue (handle 2); the destructor deletes the triangle
and then releases the queue once, as the last call of all, and the quad is never deleted. -/
theorem destruct_keeps_quad :
    Event.newTriangle (some 100) 0 ∈ lifecycle (sampleWorld 7 2) 5 ∧
    Event.newQuad (some 100) 1 ∈ lifecycle (sampleWorld 7 2) 5 ∧
    Event.newCommandQueue (some 100) 2 ∈ lifecycle (sampleWorld 7 2) 5 ∧
    lifecycle (sampleWorld 7 2) 5
      = (construct (sampleWorld 7 2) 5).1 ++ [.deleteGeometry 0, .releaseQueue 2] ∧
    queuesReleased (lifecycle (sampleWorld 7 2) 5) = [2] ∧
    destroyed (lifecycle (sampleWorld 7 2) 5) = [0] := by
  decide

/-! ## Start-up without a device -/

/-- C7: when the layer yields no device the constructor makes that one call and throws
"Failed to get Metal Device": no triangle, quad or queue is created and `render` is not
entered (no event poll, no drawable request, no command buffer). When the layer yields a
device the constructor creates the triangle, the quad and the queue and does not throw. -/
theorem construct_needs_device (w : World) (fuel : Nat) :
    construct { w with device := none } fuel
      = ([.getDevice none], .threw "Failed to get Metal Device") ∧
    polls (construct { w with device := none } fuel).1 = 0 ∧
    drawableRequests (construct { w with device := none } fuel).1 = 0 ∧
    created (construct { w with device := none } fuel).1 = [] ∧
    ∀ dev : Nat,
      (∃ rest, (construct { w with device := some dev } fuel).1
        = [.getDevice (some dev), .newTriangle (some dev) 0, .newQuad (some dev) 1,
           .newCommandQueue (some dev) 2, .retainQueue 2] ++ rest) ∧
      ∀ message, (construct { w with device := some dev } fuel).2 ≠ .threw message := by
  refine ⟨rfl, rfl, rfl, rfl, ?_⟩
  intro dev
  refine ⟨⟨_, rfl⟩, ?_⟩
  intro message
  simp only [construct]
  split <;> simp

/-! ## The frame timer -/

theorem truncToInt_mono (x y : ℚ) (h : x ≤ y) : truncToInt x ≤ truncToInt y := by
  unfold truncToInt
  by_cases hx : 0 ≤ x
  · have hy : 0 ≤ y := le_trans hx h
    rw [if_pos hx, if_pos hy]
    exact Int.floor_mono h
  · rw [if_neg hx]
    by_cases hy : 0 ≤ y
    · rw [if_pos hy]
      have h1 : ⌈x⌉ ≤ 0 := Int.ceil_le.2 (by push_cast; exact le_of_lt (not_le.1 hx))
      have h2 : (0 : ℤ) ≤ ⌊y⌋ := Int.floor_nonneg.2 hy
      exact le_trans h1 h2
    · rw [if_neg hy]
      exact Int.ceil_mono h

/-- A call of `logFPS` that reports: the whole second has passed the last printed one. -/
theorem logFPS_report (t : ℚ) (r : Renderer)
    (h : r.lastPrintedSecond < truncToInt (r.totalTime + (t - r.previousTime))) :
    logFPS t r
      = ({ r with previousTime := t,
                  totalTime := r.totalTime + (t - r.previousTime),
                  lastPrintedSecond := truncToInt (r.totalTime + (t - r.previousTime)),
                  frames := 0 },
         some { second := truncToInt (r.totalTime + (t - r.previousTime)),
                frames := r.frames + 1 }) := by
  simp [logFPS, h]

/-- A call of `logFPS` that stays silent. -/
theorem logFPS_silent (t : ℚ) (r : Renderer)
    (h : ¬ r.lastPrintedSecond < truncToInt (r.totalTime + (t - r.previousTime))) :
    logFPS t r
      = ({ r with previousTime := t,
                  totalTime := r.totalTime + (t - r.previousTime),
                  frames := r.frames + 1 },
         none) := by
  simp [logFPS, h]

/-- Every reported second lies above the last printed second, and above every second reported
before it. -/
theorem reports_chain : ∀ (times : List ℚ) (r : Renderer),
    List.Chain (fun a b : ℤ => a < b) r.lastPrintedSecond
      ((reports times r).map Report.second) := by
  intro times
  induction times with
  | nil => intro r; simp [reports, logFPSCalls]
  | cons t ts ih =>
    intro r
    by_cases h : r.lastPrintedSecond < truncToInt (r.totalTime + (t - r.previousTime))
    · have e := logFPS_report t r h
      have ih2 := ih (logFPS t r).1
      simp only [reports] at ih2 ⊢
      simp only [logFPSCalls, List.filterMap_cons]
      rw [e] at ih2 ⊢
      simp only [List.map_cons]
      exact List.Chain.cons h ih2
    · have e := logFPS_silent t r h
      have ih2 := ih (logFPS t r).1
      simp only [reports] at ih2 ⊢
      simp only [logFPSCalls, List.filterMap_cons]
      rw [e] at ih2 ⊢
      exact ih2

/-- C10: across every sequence of `logFPS` calls, from any state, the whole seconds carried
by the reports are strictly increasing and all lie above the last printed second of the
start, so no whole second is reported twice. -/
theorem logFPS_reports_increasing (times : List ℚ) (r : Renderer) :
    ((reports times r).map Report.second).Pairwise (fun a b : ℤ => a < b) ∧
    (∀ s ∈ (reports times r).map Report.second, r.lastPrintedSecond < s) ∧
    ∀ s : ℤ, ((reports times r).map Report.second).count s ≤ 1 := by
  have h := List.chain_iff_pairwise.1 (reports_chain times r)
  have hp := (List.pairwise_cons.1 h).2
  refine ⟨hp, (List.pairwise_cons.1 h).1, ?_⟩
  exact List.nodup_iff_count_le_one.1 hp.nodup

theorem reports_above (times : List ℚ) (r : Renderer) :
    ∀ rep ∈ reports times r, r.lastPrintedSecond < rep.second := by
  intro rep hrep
  have h := List.chain_iff_pairwise.1 (reports_chain times r)
  exact (List.pairwise_cons.1 h).1 rep.second (List.mem_map_of_mem _ hrep)

theorem elapsed_cons (t : ℚ) (ts : List ℚ) (r : Renderer) :
    elapsed (t :: ts) r
      = (r.totalTime + (t - r.previousTime)) :: elapsed ts (logFPS t r).1 := by
  by_cases h : r.lastPrintedSecond < truncToInt (r.totalTime + (t - r.previousTime))
  · simp [elapsed, logFPSCalls, logFPS_report t r h]
  · simp [elapsed, logFPSCalls, logFPS_silent t r h]

theorem reports_cons_report (t : ℚ) (ts : List ℚ) (r : Renderer)
    (h : r.lastPrintedSecond < truncToInt (r.totalTime + (t - r.previousTime))) :
    reports (t :: ts) r
      = { second := truncToInt (r.totalTime + (t - r.previousTime)), frames := r.frames + 1 }
          :: reports ts (logFPS t r).1 := by
  simp [reports, logFPSCalls, logFPS_report t r h]

theorem reports_cons_silent (t : ℚ) (ts : List ℚ) (r : Renderer)
    (h : ¬ r.lastPrintedSecond < truncToInt (r.totalTime + (t - r.previousTime))) :
    reports (t :: ts) r = reports ts (logFPS t r).1 := by
  simp [reports, logFPSCalls, logFPS_silent t r h]

/-- Counting the calls of a whole second is not changed by one more call that lies in an
earlier second. -/
theorem chain_more_elapsed (l : List Report) (E : List ℚ) (x : ℚ)
    (hl : ∀ a ∈ l, truncToInt x < a.second)
    (h : List.Chain' (fun a b : Report =>
      b.frames = ((E.countP fun y => truncToInt y = a.second : ℕ) : ℤ)) l) :
    List.Chain' (fun a b : Report =>
      b.frames = (((x :: E).countP fun y => truncToInt y = a.second : ℕ) : ℤ)) l := by
  refine (List.Chain'.iff_mem.1 h).imp ?_
  rintro a b ⟨ha, -, hab⟩
  have hne : ¬ truncToInt x = a.second := ne_of_lt (hl a ha)
  rw [hab, List.countP_cons_of_neg]
  simpa using hne

/-- The frame counts of the reports of a sequence of calls with a clock that does not run
backwards, from a state whose last printed second is not ahead of the accumulated time. -/
theorem logFPS_counts : ∀ (times : List ℚ) (r : Renderer),
    r.lastPrintedSecond ≤ truncToInt r.totalTime →
    List.Chain (fun a b : ℚ => a ≤ b) r.previousTime times →
    (∀ x ∈ elapsed times r, truncToInt r.totalTime ≤ truncToInt x) ∧
    (∀ rep ∈ (reports times r).head?, rep.frames = r.frames + 1
      + (((elapsed times r).countP fun y => truncToInt y = r.lastPrintedSecond : ℕ) : ℤ)) ∧
    List.Chain' (fun a b : Report =>
      b.frames = (((elapsed times r).countP fun y => truncToInt y = a.second : ℕ) : ℤ))
      (reports times r) := by
  intro times
  induction times with
  | nil => intro r _ _; simp [elapsed, reports, logFPSCalls]
  | cons t ts ih =>
    intro r hinv hchain
    obtain ⟨hpt, hts⟩ := List.chain_cons.1 hchain
    have hT : r.totalTime ≤ r.totalTime + (t - r.previousTime) := by linarith
    have hmono := truncToInt_mono _ _ hT
    by_cases h : r.lastPrintedSecond < truncToInt (r.totalTime + (t - r.previousTime))
    · have e := logFPS_report t r h
      have e1 : (logFPS t r).1.totalTime = r.totalTime + (t - r.previousTime) := by rw [e]
      have e2 : (logFPS t r).1.previousTime = t := by rw [e]
      have e3 : (logFPS t r).1.lastPrintedSecond
          = truncToInt (r.totalTime + (t - r.previousTime)) := by rw [e]
      have e4 : (logFPS t r).1.frames = 0 := by rw [e]
      obtain ⟨ia, ib, ic⟩ := ih (logFPS t r).1 (by rw [e1, e3]) (by rw [e2]; exact hts)
      have habove := reports_above ts (logFPS t r).1
      rw [e1] at ia
      rw [e3, e4] at ib
      rw [e3] at habove
      have ha : ∀ x ∈ elapsed (t :: ts) r, truncToInt r.totalTime ≤ truncToInt x := by
        rw [elapsed_cons]
        intro x hx
        rcases List.mem_cons.1 hx with rfl | hx
        · exact hmono
        · exact le_trans hmono (ia x hx)
      refine ⟨ha, ?_, ?_⟩
      · rw [reports_cons_report t ts r h]
        intro rep hrep
        simp only [List.head?_cons, Option.mem_def, Option.some.injEq] at hrep
        subst hrep
        have hz : (elapsed (t :: ts) r).countP
            (fun y => truncToInt y = r.lastPrintedSecond) = 0 := by
          rw [List.countP_eq_zero]
          intro x hx
          have := ha x hx
          have hlt : r.lastPrintedSecond < truncToInt x := by
            rw [elapsed_cons] at hx
            rcases List.mem_cons.1 hx with rfl | hx
            · exact h
            · exact lt_of_lt_of_le h (ia x hx)
          simpa using ne_of_gt hlt
        rw [hz]
        simp
      · rw [reports_cons_report t ts r h, elapsed_cons, List.chain'_cons']
        refine ⟨?_, chain_more_elapsed _ _ _ habove ic⟩
        intro y hy
        rw [ib y hy, List.countP_cons_of_pos]
        · push_cast; ring
        · simp
    · have e := logFPS_silent t r h
      have e1 : (logFPS t r).1.totalTime = r.totalTime + (t - r.previousTime) := by rw [e]
      have e2 : (logFPS t r).1.previousTime = t := by rw [e]
      have e3 : (logFPS t r).1.lastPrintedSecond = r.lastPrintedSecond := by rw [e]
      have e4 : (logFPS t r).1.frames = r.frames + 1 := by rw [e]
      have hcur : truncToInt (r.totalTime + (t - r.previousTime)) = r.lastPrintedSecond :=
        le_antisymm (not_lt.1 h) (le_trans hinv hmono)
      obtain ⟨ia, ib, ic⟩ := ih (logFPS t r).1 (by rw [e1, e3, hcur]) (by rw [e2]; exact hts)
      have habove := reports_above ts (logFPS t r).1
      rw [e1] at ia
      rw [e3, e4] at ib
      rw [e3, ← hcur] at habove
      refine ⟨?_, ?_, ?_⟩
      · rw [elapsed_cons]
        intro x hx
        rcases List.mem_cons.1 hx with rfl | hx
        · exact hmono
        · exact le_trans hmono (ia x hx)
      · rw [reports_cons_silent t ts r h, elapsed_cons]
        intro rep hrep
        rw [ib rep hrep, List.countP_cons_of_pos]
        · push_cast; ring
        · simpa using hcur
      · rw [reports_cons_silent t ts r h, elapsed_cons]
        exact chain_more_elapsed _ _ _ habove ic

/-- C9 as stated fails: with clock readings 1/2 and 3/4 after a start at 0, both calls have
their accumulated elapsed time in whole second 0, yet the only report, for second 0, carries
the frame count 1. -/
theorem logFPS_first_report_undercounts :
    List.Chain (fun a b : ℚ => a ≤ b) (sampleWorld 7 5).startTime [1 / 2, 3 / 4] ∧
    reports [1 / 2, 3 / 4] (Renderer.initial (sampleWorld 7 5))
      = [{ second := 0, frames := 1 }] ∧
    callsInSecond 0 [1 / 2, 3 / 4] (Renderer.initial (sampleWorld 7 5)) = 2 ∧
    ¬ ∀ rep ∈ reports [1 / 2, 3 / 4] (Renderer.initial (sampleWorld 7 5)),
        rep.frames = callsInSecond rep.second [1 / 2, 3 / 4] (Renderer.initial (sampleWorld 7 5)) := by
  have h1 : reports [1 / 2, 3 / 4] (Renderer.initial (sampleWorld 7 5))
      = [{ second := 0, frames := 1 }] := by
    simp [reports, logFPSCalls, logFPS, truncToInt, Renderer.initial, sampleWorld]
    norm_num
    rfl
  have h2 : callsInSecond 0 [1 / 2, 3 / 4] (Renderer.initial (sampleWorld 7 5)) = 2 := by
    simp [callsInSecond, elapsed, logFPSCalls, logFPS, truncToInt, Renderer.initial,
      sampleWorld]
    norm_num
  refine ⟨?_, h1, h2, ?_⟩
  · simp [sampleWorld]
    norm_num
  · intro hall
    have h3 := hall { second := 0, frames := 1 } (by rw [h1]; exact List.mem_singleton_self _)
    rw [h2] at h3
    norm_num at h3

/-- C9, amended: for every sequence of `logFPS` calls from the constructor's initial state
with a clock that does not run backwards, the first report carries the frame count 1, and
every later report carries the number of calls whose accumulated elapsed time lies in the
whole second of the report before it. -/
theorem logFPS_reports_previous_second (w : World) (times : List ℚ)
    (h : List.Chain (fun a b : ℚ => a ≤ b) w.startTime times) :
    (∀ rep ∈ (reports times (Renderer.initial w)).head?, rep.frames = 1) ∧
    List.Chain' (fun a b : Report =>
        b.frames = (callsInSecond a.second times (Renderer.initial w) : ℤ))
      (reports times (Renderer.initial w)) := by
  have hinv : (Renderer.initial w).lastPrintedSecond
      ≤ truncToInt (Renderer.initial w).totalTime := by
    simp [Renderer.initial, truncToInt]
  obtain ⟨ha, hb, hc⟩ := logFPS_counts times (Renderer.initial w) hinv h
  refine ⟨?_, hc⟩
  intro rep hrep
  have hz : (elapsed times (Renderer.initial w)).countP
      (fun y => truncToInt y = (Renderer.initial w).lastPrintedSecond) = 0 := by
    rw [List.countP_eq_zero]
    intro x hx
    have h0 := ha x hx
    have h1 : truncToInt (Renderer.initial w).totalTime = 0 := by
      simp [Renderer.initial, truncToInt]
    have h2 : (Renderer.initial w).lastPrintedSecond = -1 := rfl
    rw [h1] at h0
    rw [h2]
    have : ¬ truncToInt x = -1 := by omega
    simpa using this
  rw [hb rep hrep, hz]
  simp [Renderer.initial]

theorem logFPS_reports_previous_second_witness :
    reports [1 / 2, 3 / 4, 3 / 2, 5] (Renderer.initial (sampleWorld 7 5))
      = [{ second := 0, frames := 1 }, { second := 1, frames := 2 },
         { second := 5, frames := 1 }] ∧
    List.Chain' (fun a b : Report =>
        b.frames
          = (callsInSecond a.second [1 / 2, 3 / 4, 3 / 2, 5] (Renderer.initial (sampleWorld 7 5))
              : ℤ))
      (reports [1 / 2, 3 / 4, 3 / 2, 5] (Renderer.initial (sampleWorld 7 5))) :=
  ⟨by
    simp [reports, logFPSCalls, logFPS, truncToInt, Renderer.initial, sampleWorld]
    norm_num
    rfl,
   (logFPS_reports_previous_second (sampleWorld 7 5) [1 / 2, 3 / 4, 3 / 2, 5]
      (by simp [sampleWorld]; norm_num)).2⟩

end MetalRenderer
